import Mathlib

/-!
Shallow embedding of the document state machine of the Konva product editor
(`src/state/editorState.tsx`): the object model, the history container, the
reducer (transition function), region construction from point sequences, and
JSON serialization. TypeScript numbers are modelled as rationals; the places
where IEEE special values (±Infinity, NaN) can actually arise from rational
inputs — `Math.min`/`Math.max` over a spread of an empty array inside
`getBoundsFromPoints` — are modelled explicitly by the `JsNum` type.
-/

namespace KonvaEditor

/-- A JavaScript number that may be an IEEE special value. Finite doubles are
abstracted as rationals; `nan` models `NaN` (arising from `undefined` entries
of an odd-length point list), `posInf`/`negInf` model `±Infinity` (arising
from `Math.min()`/`Math.max()` of an empty spread). -/
inductive JsNum where
  | finite (q : ℚ)
  | posInf
  | negInf
  | nan
deriving DecidableEq

/-- Binary `Math.max`: NaN-propagating, `-Infinity` is the identity. -/
def jsMax : JsNum → JsNum → JsNum
  | .nan, _ => .nan
  | _, .nan => .nan
  | .posInf, _ => .posInf
  | _, .posInf => .posInf
  | .negInf, b => b
  | a, .negInf => a
  | .finite a, .finite b => .finite (max a b)

/-- Binary `Math.min`: NaN-propagating, `+Infinity` is the identity. -/
def jsMin : JsNum → JsNum → JsNum
  | .nan, _ => .nan
  | _, .nan => .nan
  | .negInf, _ => .negInf
  | _, .negInf => .negInf
  | .posInf, b => b
  | a, .posInf => a
  | .finite a, .finite b => .finite (min a b)

/-- IEEE subtraction on the modelled values (`∞ - ∞ = NaN`, etc.). -/
def jsSub : JsNum → JsNum → JsNum
  | .nan, _ => .nan
  | _, .nan => .nan
  | .posInf, .posInf => .nan
  | .posInf, _ => .posInf
  | .negInf, .negInf => .nan
  | .negInf, _ => .negInf
  | .finite _, .posInf => .negInf
  | .finite _, .negInf => .posInf
  | .finite a, .finite b => .finite (a - b)

/-- Spread minimum `Math.min(...xs)`: left fold starting from `Math.min() = Infinity`. -/
def jsMinList (xs : List JsNum) : JsNum := xs.foldl jsMin .posInf

/-- Spread maximum `Math.max(...xs)`: left fold starting from `Math.max() = -Infinity`. -/
def jsMaxList (xs : List JsNum) : JsNum := xs.foldl jsMax .negInf

/-- The `ObjectType` union: `"region" | "text" | "image" | "rect" | "circle"`. -/
inductive ObjectType where
  | region
  | text
  | image
  | rect
  | circle
deriving DecidableEq

/-- The `align` union: `"left" | "center" | "right"`. -/
inductive Align where
  | left
  | center
  | right
deriving DecidableEq

/-- The `EditorObject` interface. TS optional fields (`?`) become `Option`;
`width`/`height` are `JsNum` because `createRegion` can store `-Infinity`
there (bounds of an empty point list). -/
structure EditorObject where
  id : String
  type : ObjectType
  name : String
  x : ℚ
  y : ℚ
  width : JsNum
  height : JsNum
  rotation : ℚ
  zIndex : ℚ
  scaleX : Option ℚ
  scaleY : Option ℚ
  fill : Option String
  stroke : Option String
  strokeWidth : Option ℚ
  opacity : ℚ
  visible : Bool
  locked : Bool
  patternId : Option String
  points : Option (List ℚ)
  text : Option String
  fontSize : Option ℚ
  fontFamily : Option String
  align : Option Align
  src : Option String
deriving DecidableEq

/-- The pan offset `{ x: number; y: number }`. -/
structure Pan where
  x : ℚ
  y : ℚ
deriving DecidableEq

/-- The `EditorPresent` interface: one document snapshot. -/
structure EditorPresent where
  objects : List EditorObject
  selectedId : Option String
  zoom : ℚ
  pan : Pan
deriving DecidableEq

/-- The `EditorState` interface: history container around a snapshot. -/
structure EditorState where
  past : List EditorPresent
  present : EditorPresent
  future : List EditorPresent
deriving DecidableEq

/-- The `Partial<EditorObject>` payload of an update: each key may be absent (`none`) or present with a
value; a present key for a TS-optional field carries an `Option` value, where
`none` is an explicit `undefined`. -/
structure ObjectChanges where
  id : Option String := none
  type : Option ObjectType := none
  name : Option String := none
  x : Option ℚ := none
  y : Option ℚ := none
  width : Option JsNum := none
  height : Option JsNum := none
  rotation : Option ℚ := none
  zIndex : Option ℚ := none
  scaleX : Option (Option ℚ) := none
  scaleY : Option (Option ℚ) := none
  fill : Option (Option String) := none
  stroke : Option (Option String) := none
  strokeWidth : Option (Option ℚ) := none
  opacity : Option ℚ := none
  visible : Option Bool := none
  locked : Option Bool := none
  patternId : Option (Option String) := none
  points : Option (Option (List ℚ)) := none
  text : Option (Option String) := none
  fontSize : Option (Option ℚ) := none
  fontFamily : Option (Option String) := none
  align : Option (Option Align) := none
  src : Option (Option String) := none
deriving DecidableEq

/-- The spread `{ ...obj, ...changes }`: every key present in `changes`
overwrites the corresponding key of `obj`. -/
def applyChanges (obj : EditorObject) (ch : ObjectChanges) : EditorObject where
  id := ch.id.getD obj.id
  type := ch.type.getD obj.type
  name := ch.name.getD obj.name
  x := ch.x.getD obj.x
  y := ch.y.getD obj.y
  width := ch.width.getD obj.width
  height := ch.height.getD obj.height
  rotation := ch.rotation.getD obj.rotation
  zIndex := ch.zIndex.getD obj.zIndex
  scaleX := ch.scaleX.getD obj.scaleX
  scaleY := ch.scaleY.getD obj.scaleY
  fill := ch.fill.getD obj.fill
  stroke := ch.stroke.getD obj.stroke
  strokeWidth := ch.strokeWidth.getD obj.strokeWidth
  opacity := ch.opacity.getD obj.opacity
  visible := ch.visible.getD obj.visible
  locked := ch.locked.getD obj.locked
  patternId := ch.patternId.getD obj.patternId
  points := ch.points.getD obj.points
  text := ch.text.getD obj.text
  fontSize := ch.fontSize.getD obj.fontSize
  fontFamily := ch.fontFamily.getD obj.fontFamily
  align := ch.align.getD obj.align
  src := ch.src.getD obj.src

/-- The helper `clamp(value, min, max) = Math.min(Math.max(value, min), max)`. -/
def clamp (value lo hi : ℚ) : ℚ := min (max value lo) hi

/-- The iterations of the `for (let i = 0; i < points.length; i += 2)` loop in
`getBoundsFromPoints`: each iteration reads `points[i]` (always in bounds) and
`points[i + 1]` (`undefined`, i.e. `none`, when the list has odd length). -/
def loopSlots : List ℚ → List (ℚ × Option ℚ)
  | [] => []
  | [x] => [(x, none)]
  | x :: y :: rest => (x, some y) :: loopSlots rest

/-- Coercion of a pushed slot value to a number: `Number(undefined) = NaN`. -/
def jsNumOfSlot : Option ℚ → JsNum
  | none => .nan
  | some q => .finite q

/-- Result record of `getBoundsFromPoints`. -/
structure Bounds where
  width : JsNum
  height : JsNum
  minX : JsNum
  minY : JsNum
deriving DecidableEq

/-- The helper `getBoundsFromPoints`: collect even-indexed coordinates into `xs` and
odd-indexed ones into `ys`, then take `Math.min`/`Math.max` over their spreads
(an empty spread yields `±Infinity`) and subtract. -/
def getBoundsFromPoints (points : List ℚ) : Bounds :=
  let slots := loopSlots points
  let xs := slots.map fun s => JsNum.finite s.1
  let ys := slots.map fun s => jsNumOfSlot s.2
  let minX := jsMinList xs
  let maxX := jsMaxList xs
  let minY := jsMinList ys
  let maxY := jsMaxList ys
  { width := jsSub maxX minX, height := jsSub maxY minY, minX := minX, minY := minY }

/-- Region construction `createRegion(id, name, points, fill, zIndex)`. -/
def createRegion (id : String) (name : String) (points : List ℚ) (fill : String)
    (zIndex : ℚ) : EditorObject :=
  let bounds := getBoundsFromPoints points
  { id := id
    type := .region
    name := name
    points := some points
    x := 0
    y := 0
    width := bounds.width
    height := bounds.height
    rotation := 0
    zIndex := zIndex
    opacity := 95 / 100
    visible := true
    locked := false
    fill := some fill
    stroke := some "#0f172a"
    strokeWidth := some (8 / 10)
    scaleX := some 1
    scaleY := some 1
    patternId := none
    text := none
    fontSize := none
    fontFamily := none
    align := none
    src := none }

/-- The constant `initialRegions`: the four backdrop regions. -/
def initialRegions : List EditorObject :=
  [ createRegion "region-top" "Top Panel" [120, 60, 220, 60, 250, 150, 90, 150] "#fef2f2" 0,
    createRegion "region-bottom" "Bottom Panel" [110, 170, 240, 170, 230, 260, 120, 260] "#e0f2fe" 1,
    createRegion "region-left-strap" "Left Strap" [110, 60, 130, 60, 110, 20, 90, 20] "#ede9fe" 2,
    createRegion "region-right-strap" "Right Strap" [220, 60, 240, 60, 260, 20, 240, 20] "#eef2ff" 3 ]

/-- The constant `initialPresent`. -/
def initialPresent : EditorPresent :=
  { objects := initialRegions, selectedId := none, zoom := 1, pan := { x := 0, y := 0 } }

/-- The initial history container passed to `useReducer`. -/
def initialState : EditorState :=
  { past := [], present := initialPresent, future := [] }

/-- Normalization `normalizeZIndex`: re-assign each object's z-index to its array position. -/
def normalizeZIndex (objects : List EditorObject) : List EditorObject :=
  objects.mapIdx fun index obj => { obj with zIndex := (index : ℚ) }

/-- The helper `pushHistory(state, next)`: append `present` to `past`, install `next`,
clear `future`. -/
def pushHistory (state : EditorState) (next : EditorPresent) : EditorState :=
  { past := state.past ++ [state.present], present := next, future := [] }

/-- The `EditorAction` union. -/
inductive EditorAction where
  | SET_SELECTED (id : Option String)
  | ADD_OBJECT (object : EditorObject)
  | UPDATE_OBJECT (id : String) (changes : ObjectChanges)
  | DELETE_OBJECT (id : String)
  | BRING_TO_FRONT (id : String)
  | SEND_TO_BACK (id : String)
  | SET_VISIBILITY (id : String) (visible : Bool)
  | SET_LOCK (id : String) (locked : Bool)
  | SET_ZOOM (zoom : ℚ)
  | SET_VIEWPORT (zoom : ℚ) (pan : Pan)
  | SET_PAN (pan : Pan)
  | RESET
  | IMPORT_STATE (present : EditorPresent)
  | UNDO
  | REDO
  | CLEAR
deriving DecidableEq

/-- The reducer `editorReducer(state, action)`: the transition function, case for case as
in the source. `UNDO` reads the last element of `past` (the `getLast?` match
is `none` exactly when `past.length` is zero). -/
def editorReducer (state : EditorState) (action : EditorAction) : EditorState :=
  match action with
  | .SET_SELECTED id =>
      { state with present := { state.present with selectedId := id } }
  | .ADD_OBJECT object =>
      let objects := normalizeZIndex
        (state.present.objects ++ [{ object with zIndex := (state.present.objects.length : ℚ) }])
      let present := { state.present with objects := objects, selectedId := some object.id }
      pushHistory state present
  | .UPDATE_OBJECT id changes =>
      let objects := normalizeZIndex
        (state.present.objects.map fun obj =>
          if obj.id = id then applyChanges obj changes else obj)
      pushHistory state { state.present with objects := objects }
  | .DELETE_OBJECT id =>
      let objects := normalizeZIndex
        (state.present.objects.filter fun obj => obj.id ≠ id)
      let selectedId :=
        if state.present.selectedId = some id then none else state.present.selectedId
      pushHistory state { state.present with objects := objects, selectedId := selectedId }
  | .BRING_TO_FRONT id =>
      match state.present.objects.find? fun o => o.id = id with
      | none => state
      | some target =>
          let rest := state.present.objects.filter fun o => o.id ≠ id
          pushHistory state
            { state.present with objects := normalizeZIndex (rest ++ [target]) }
  | .SEND_TO_BACK id =>
      match state.present.objects.find? fun o => o.id = id with
      | none => state
      | some target =>
          let rest := state.present.objects.filter fun o => o.id ≠ id
          pushHistory state
            { state.present with objects := normalizeZIndex (target :: rest) }
  | .SET_VISIBILITY id visible =>
      let objects := normalizeZIndex
        (state.present.objects.map fun obj =>
          if obj.id = id then { obj with visible := visible } else obj)
      pushHistory state { state.present with objects := objects }
  | .SET_LOCK id locked =>
      let objects := normalizeZIndex
        (state.present.objects.map fun obj =>
          if obj.id = id then { obj with locked := locked } else obj)
      pushHistory state { state.present with objects := objects }
  | .SET_ZOOM zoom =>
      pushHistory state { state.present with zoom := clamp zoom (2 / 10) 4 }
  | .SET_VIEWPORT zoom pan =>
      pushHistory state { state.present with zoom := clamp zoom (2 / 10) 4, pan := pan }
  | .SET_PAN pan =>
      pushHistory state { state.present with pan := pan }
  | .RESET =>
      { past := [], present := initialPresent, future := [] }
  | .IMPORT_STATE present =>
      { past := []
        present := { present with objects := normalizeZIndex present.objects }
        future := [] }
  | .UNDO =>
      match state.past.getLast? with
      | none => state
      | some previous =>
          { past := state.past.dropLast
            present := previous
            future := state.present :: state.future }
  | .REDO =>
      match state.future with
      | [] => state
      | next :: rest =>
          { past := state.past ++ [state.present], present := next, future := rest }
  | .CLEAR =>
      pushHistory state
        { state.present with
          objects := normalizeZIndex (state.present.objects.filter fun o => o.type = .region)
          selectedId := none }

/-! ### Serialization

`serializeState` is `JSON.stringify(present, null, 2)` and `parseState` is
`JSON.parse` followed by an unchecked cast and z-index normalization. The
string layer is modelled at the level of JSON trees: `JSON.parse` inverts
`JSON.stringify` exactly on JSON-safe trees, so `serializeState` produces the
tree `JSON.stringify` would encode and `parseState` consumes the tree
`JSON.parse` would return. `JSON.stringify` drops keys holding `undefined`
and turns non-finite numbers into `null`; the unchecked cast in `parseState`
is modelled by a typed decoder that fails (`none`) on payloads that do not
fit the `EditorPresent` shape. -/

/-- A JSON tree. -/
inductive Json where
  | null
  | bool (b : Bool)
  | num (q : ℚ)
  | str (s : String)
  | arr (items : List Json)
  | obj (fields : List (String × Json))

/-- Property access `o[k]` on a parsed JSON object: first field with that key. -/
def getField (fields : List (String × Json)) (key : String) : Option Json :=
  (fields.find? fun p => p.1 = key).map fun p => p.2

/-- A field that `JSON.stringify` emits only when the value is not
`undefined`. -/
def optField (key : String) (f : α → Json) : Option α → List (String × Json)
  | none => []
  | some a => [(key, f a)]

/-- Encoding of a number by `JSON.stringify`: non-finite numbers serialize as `null`. -/
def encodeJsNum : JsNum → Json
  | .finite q => .num q
  | _ => .null

/-- Tag string of an `ObjectType`. -/
def encodeObjectType : ObjectType → Json
  | .region => .str "region"
  | .text => .str "text"
  | .image => .str "image"
  | .rect => .str "rect"
  | .circle => .str "circle"

/-- Tag string of an `Align`. -/
def encodeAlign : Align → Json
  | .left => .str "left"
  | .center => .str "center"
  | .right => .str "right"

/-- The field list `JSON.stringify` emits for one `EditorObject`: mandatory
keys plus the optional keys that are not `undefined`. -/
def encFields (o : EditorObject) : List (String × Json) :=
  ([("id", .str o.id),
         ("type", encodeObjectType o.type),
         ("name", .str o.name),
         ("x", .num o.x),
         ("y", .num o.y),
         ("width", encodeJsNum o.width),
         ("height", encodeJsNum o.height),
         ("rotation", .num o.rotation),
         ("zIndex", .num o.zIndex),
         ("opacity", .num o.opacity),
         ("visible", .bool o.visible),
         ("locked", .bool o.locked)]
    ++ optField "scaleX" Json.num o.scaleX
    ++ optField "scaleY" Json.num o.scaleY
    ++ optField "fill" Json.str o.fill
    ++ optField "stroke" Json.str o.stroke
    ++ optField "strokeWidth" Json.num o.strokeWidth
    ++ optField "patternId" Json.str o.patternId
    ++ optField "points" (fun ps => Json.arr (ps.map Json.num)) o.points
    ++ optField "text" Json.str o.text
    ++ optField "fontSize" Json.num o.fontSize
    ++ optField "fontFamily" Json.str o.fontFamily
    ++ optField "align" encodeAlign o.align
    ++ optField "src" Json.str o.src)

/-- Encoding of one `EditorObject` by `JSON.stringify` (tree level). -/
def encodeObject (o : EditorObject) : Json := .obj (encFields o)

/-- The export function `serializeState(present)`: the JSON tree of the snapshot (`selectedId`
serializes `null` when no selection). -/
def serializeState (present : EditorPresent) : Json :=
  .obj [("objects", .arr (present.objects.map encodeObject)),
        ("selectedId", match present.selectedId with
                       | none => .null
                       | some s => .str s),
        ("zoom", .num present.zoom),
        ("pan", .obj [("x", .num present.pan.x), ("y", .num present.pan.y)])]

/-- Reading a JSON value as a finite number. -/
def asNum : Json → Option ℚ
  | .num q => some q
  | _ => none

/-- Reading a JSON value as a string. -/
def asStr : Json → Option String
  | .str s => some s
  | _ => none

/-- Reading a JSON value as a boolean. -/
def asBool : Json → Option Bool
  | .bool b => some b
  | _ => none

/-- Reading a JSON value as a number field of the typed model (`JsNum`). -/
def asJsNum : Json → Option JsNum
  | .num q => some (JsNum.finite q)
  | _ => none

/-- Reading a JSON value as an `ObjectType` tag. -/
def asObjectType : Json → Option ObjectType
  | .str "region" => some .region
  | .str "text" => some .text
  | .str "image" => some .image
  | .str "rect" => some .rect
  | .str "circle" => some .circle
  | _ => none

/-- Reading a JSON value as an `Align` tag. -/
def asAlign : Json → Option Align
  | .str "left" => some .left
  | .str "center" => some .center
  | .str "right" => some .right
  | _ => none

/-- Reading a JSON array element-wise. -/
def decodeList (dec : Json → Option α) : List Json → Option (List α)
  | [] => some []
  | j :: js => do
      let a ← dec j
      let as ← decodeList dec js
      pure (a :: as)

/-- Reading an optional field: an absent key is `undefined` (`none`); a
present key must decode. -/
def decodeOpt (dec : Json → Option α) : Option Json → Option (Option α)
  | none => some none
  | some j => (dec j).map some

/-- Reading a JSON value as a point list (`number[]`). -/
def asPoints : Json → Option (List ℚ)
  | .arr xs => decodeList asNum xs
  | _ => none

/-- Decoded mandatory fields of an `EditorObject` payload (staging record for
`decodeObject`). -/
structure DecodedScalars where
  id : String
  type : ObjectType
  name : String
  x : ℚ
  y : ℚ
  width : JsNum
  height : JsNum
  rotation : ℚ
  zIndex : ℚ
  opacity : ℚ
  visible : Bool
  locked : Bool

/-- Decoded optional fields of an `EditorObject` payload (staging record for
`decodeObject`). -/
structure DecodedOptionals where
  scaleX : Option ℚ
  scaleY : Option ℚ
  fill : Option String
  stroke : Option String
  strokeWidth : Option ℚ
  patternId : Option String
  points : Option (List ℚ)
  text : Option String
  fontSize : Option ℚ
  fontFamily : Option String
  align : Option Align
  src : Option String

/-- Decode the mandatory fields of one parsed object. -/
def decodeScalars (fields : List (String × Json)) : Option DecodedScalars := do
  let id ← getField fields "id" >>= asStr
  let type ← getField fields "type" >>= asObjectType
  let name ← getField fields "name" >>= asStr
  let x ← getField fields "x" >>= asNum
  let y ← getField fields "y" >>= asNum
  let width ← getField fields "width" >>= asJsNum
  let height ← getField fields "height" >>= asJsNum
  let rotation ← getField fields "rotation" >>= asNum
  let zIndex ← getField fields "zIndex" >>= asNum
  let opacity ← getField fields "opacity" >>= asNum
  let visible ← getField fields "visible" >>= asBool
  let locked ← getField fields "locked" >>= asBool
  pure { id := id, type := type, name := name, x := x, y := y,
         width := width, height := height, rotation := rotation,
         zIndex := zIndex, opacity := opacity, visible := visible,
         locked := locked }

/-- Decode the optional fields of one parsed object. -/
def decodeOptionals (fields : List (String × Json)) : Option DecodedOptionals := do
  let scaleX ← decodeOpt asNum (getField fields "scaleX")
  let scaleY ← decodeOpt asNum (getField fields "scaleY")
  let fill ← decodeOpt asStr (getField fields "fill")
  let stroke ← decodeOpt asStr (getField fields "stroke")
  let strokeWidth ← decodeOpt asNum (getField fields "strokeWidth")
  let patternId ← decodeOpt asStr (getField fields "patternId")
  let points ← decodeOpt asPoints (getField fields "points")
  let text ← decodeOpt asStr (getField fields "text")
  let fontSize ← decodeOpt asNum (getField fields "fontSize")
  let fontFamily ← decodeOpt asStr (getField fields "fontFamily")
  let align ← decodeOpt asAlign (getField fields "align")
  let src ← decodeOpt asStr (getField fields "src")
  pure { scaleX := scaleX, scaleY := scaleY, fill := fill, stroke := stroke,
         strokeWidth := strokeWidth, patternId := patternId, points := points,
         text := text, fontSize := fontSize, fontFamily := fontFamily,
         align := align, src := src }

/-- Typed realization of the unchecked `as EditorObject` cast on one parsed
object: succeeds exactly when the payload fits the model's field types. -/
def decodeObject (j : Json) : Option EditorObject :=
  match j with
  | .obj fields => do
      let s ← decodeScalars fields
      let o ← decodeOptionals fields
      pure { id := s.id, type := s.type, name := s.name, x := s.x, y := s.y,
             width := s.width, height := s.height, rotation := s.rotation,
             zIndex := s.zIndex, scaleX := o.scaleX, scaleY := o.scaleY,
             fill := o.fill, stroke := o.stroke, strokeWidth := o.strokeWidth,
             opacity := s.opacity, visible := s.visible, locked := s.locked,
             patternId := o.patternId, points := o.points, text := o.text,
             fontSize := o.fontSize, fontFamily := o.fontFamily,
             align := o.align, src := o.src }
  | _ => none

/-- The import function `parseState(json)`: take the parsed tree, default a missing or `null`
`objects` to `[]` (the `parsed.objects ?? []`), realize the unchecked cast,
and normalize z-indices. -/
def parseState (j : Json) : Option EditorPresent :=
  match j with
  | .obj fields => do
      let objs ←
        match getField fields "objects" with
        | none => some []
        | some .null => some []
        | some (.arr xs) => decodeList decodeObject xs
        | some _ => none
      let selectedId ←
        match getField fields "selectedId" with
        | some .null => some none
        | some (.str s) => some (some s)
        | _ => none
      let zoom ← getField fields "zoom" >>= asNum
      let pan ←
        match getField fields "pan" with
        | some (.obj pf) => do
            let px ← getField pf "x" >>= asNum
            let py ← getField pf "y" >>= asNum
            pure { x := px, y := py : Pan }
        | _ => none
      pure { objects := normalizeZIndex objs, selectedId := selectedId,
             zoom := zoom, pan := pan }
  | _ => none

/-! ### Concrete values used by witnesses and counterexamples -/

/-- A snapshot with no objects and default viewport. -/
def emptyPresent : EditorPresent :=
  { objects := [], selectedId := none, zoom := 1, pan := { x := 0, y := 0 } }

/-- A history state holding only `emptyPresent`. -/
def emptyState : EditorState :=
  { past := [], present := emptyPresent, future := [] }

/-- A history state with a non-empty redo stack. -/
def stagedState : EditorState :=
  { past := [], present := emptyPresent, future := [emptyPresent] }

/-- A history state with a non-empty undo stack. -/
def undoableState : EditorState :=
  { past := [emptyPresent], present := { emptyPresent with zoom := 2 }, future := [] }

/-! ### C1: undo/redo -/

/-- C1: for every history state whose `past` stack is non-empty, applying
`UNDO` and then `REDO` returns the original state (past, present and future
are all restored). -/
theorem undo_then_redo_restores_state (S : EditorState) (h : S.past ≠ []) :
    editorReducer (editorReducer S .UNDO) .REDO = S := by
  obtain ⟨past, present, future⟩ := S
  have h' : past ≠ [] := fun hn => h (by simp [hn])
  have hl : past.getLast? = some (past.getLast h') :=
    List.getLast?_eq_getLast_of_ne_nil h'
  simp only [editorReducer, hl]
  rw [List.dropLast_append_getLast h']

/-- Witness for C1 at a concrete state with one undoable edit. -/
theorem undo_then_redo_restores_state_witness :
    undoableState.past ≠ [] ∧
    editorReducer (editorReducer undoableState .UNDO) .REDO = undoableState :=
  ⟨by decide, undo_then_redo_restores_state undoableState (by decide)⟩

/-! ### C8: selection is not history-producing -/

/-- C8: the selection-change command leaves `past` and `future` untouched and
changes `present` only in its `selectedId` field. -/
theorem set_selected_touches_only_selection (S : EditorState) (id : Option String) :
    editorReducer S (.SET_SELECTED id)
      = { S with present := { S.present with selectedId := id } } := rfl

/-! ### C9: region construction from an empty point sequence -/

/-- C9 (code bug): `createRegion` on an empty points array does not produce a
zero-size object: `Math.min()`/`Math.max()` of an empty spread are `±Infinity`
and the stored width and height are both `-Infinity`, never `0`. -/
theorem createRegion_empty_points_not_zero_size (id name fill : String) (z : ℚ) :
    (createRegion id name [] fill z).width = JsNum.negInf ∧
    (createRegion id name [] fill z).height = JsNum.negInf ∧
    ∀ q : ℚ, (createRegion id name [] fill z).width ≠ JsNum.finite q := by
  refine ⟨rfl, rfl, fun q h => ?_⟩
  rw [show (createRegion id name [] fill z).width = JsNum.negInf from rfl] at h
  exact JsNum.noConfusion h

/-! ### C3: history-producing commands -/

/-- Counterexample to C3 as stated: a reorder command whose id matches no
object returns the state unchanged, so nothing is pushed onto `past` and a
non-empty `future` survives. -/
theorem reorder_missing_id_skips_history_push :
    editorReducer stagedState (.BRING_TO_FRONT "x") = stagedState ∧
    stagedState.future ≠ [] ∧
    (editorReducer stagedState (.BRING_TO_FRONT "x")).past
      ≠ stagedState.past ++ [stagedState.present] := by
  refine ⟨rfl, by decide, by decide⟩

/-- The history-producing commands of the spec (add, update, delete, reorder,
visibility, lock, zoom, viewport, pan, clear). -/
def HistoryProducing : EditorAction → Prop
  | .ADD_OBJECT _ => True
  | .UPDATE_OBJECT _ _ => True
  | .DELETE_OBJECT _ => True
  | .BRING_TO_FRONT _ => True
  | .SEND_TO_BACK _ => True
  | .SET_VISIBILITY _ _ => True
  | .SET_LOCK _ _ => True
  | .SET_ZOOM _ => True
  | .SET_VIEWPORT _ _ => True
  | .SET_PAN _ => True
  | .CLEAR => True
  | _ => False

/-- C3 as amended: every history-producing command appends the old `present`
to `past` and clears `future` — except that the two reorder commands do so
only when their id matches an object; with a matching id they push as well. -/
theorem history_producing_pushes (S : EditorState) (a : EditorAction)
    (ha : HistoryProducing a)
    (hfront : ∀ id, a = .BRING_TO_FRONT id → ∃ o ∈ S.present.objects, o.id = id)
    (hback : ∀ id, a = .SEND_TO_BACK id → ∃ o ∈ S.present.objects, o.id = id) :
    (editorReducer S a).past = S.past ++ [S.present] ∧ (editorReducer S a).future = [] := by
  cases a with
  | SET_SELECTED id => exact ha.elim
  | RESET => exact ha.elim
  | IMPORT_STATE p => exact ha.elim
  | UNDO => exact ha.elim
  | REDO => exact ha.elim
  | BRING_TO_FRONT id =>
      obtain ⟨o, ho, hid⟩ := hfront id rfl
      have hs : (S.present.objects.find? fun o => o.id = id).isSome :=
        List.find?_isSome.2 ⟨o, ho, by simp [hid]⟩
      obtain ⟨t, ht⟩ := Option.isSome_iff_exists.1 hs
      simp only [editorReducer, ht]
      exact ⟨rfl, rfl⟩
  | SEND_TO_BACK id =>
      obtain ⟨o, ho, hid⟩ := hback id rfl
      have hs : (S.present.objects.find? fun o => o.id = id).isSome :=
        List.find?_isSome.2 ⟨o, ho, by simp [hid]⟩
      obtain ⟨t, ht⟩ := Option.isSome_iff_exists.1 hs
      simp only [editorReducer, ht]
      exact ⟨rfl, rfl⟩
  | ADD_OBJECT o => exact ⟨rfl, rfl⟩
  | UPDATE_OBJECT id ch => exact ⟨rfl, rfl⟩
  | DELETE_OBJECT id => exact ⟨rfl, rfl⟩
  | SET_VISIBILITY id v => exact ⟨rfl, rfl⟩
  | SET_LOCK id lk => exact ⟨rfl, rfl⟩
  | SET_ZOOM z => exact ⟨rfl, rfl⟩
  | SET_VIEWPORT z p => exact ⟨rfl, rfl⟩
  | SET_PAN p => exact ⟨rfl, rfl⟩
  | CLEAR => exact ⟨rfl, rfl⟩

/-- Witness for the amended C3 at a concrete zoom command. -/
theorem history_producing_pushes_witness :
    (editorReducer emptyState (.SET_ZOOM 3)).past = emptyState.past ++ [emptyState.present] ∧
    (editorReducer emptyState (.SET_ZOOM 3)).future = [] :=
  history_producing_pushes emptyState (.SET_ZOOM 3) trivial
    (fun _ h => nomatch h) (fun _ h => nomatch h)

/-! ### C4: commands on a missing id -/

/-- Counterexample to C4 as stated: an update whose id matches nothing still
pushes a history entry, so `past` is not left unchanged. -/
theorem update_missing_id_still_pushes :
    (editorReducer emptyState (.UPDATE_OBJECT "missing" {})).past ≠ emptyState.past ∧
    (editorReducer emptyState (.UPDATE_OBJECT "missing" {})).past = [emptyPresent] := by
  refine ⟨by decide, rfl⟩

/-- C4 as amended: when the id matches no object, update-attributes,
set-visibility and set-lock leave the snapshot contents unchanged (up to
re-running the idempotent z-index normalization) and raise no error, but they
still push the old `present` onto `past` and clear `future`; when the
snapshot was already normalized the new `present` equals the old one. -/
theorem missing_id_commands_push_unchanged_present (S : EditorState) (id : String)
    (ch : ObjectChanges) (vis lk : Bool)
    (h : ∀ o ∈ S.present.objects, o.id ≠ id) :
    editorReducer S (.UPDATE_OBJECT id ch)
        = pushHistory S { S.present with objects := normalizeZIndex S.present.objects }
    ∧ editorReducer S (.SET_VISIBILITY id vis)
        = pushHistory S { S.present with objects := normalizeZIndex S.present.objects }
    ∧ editorReducer S (.SET_LOCK id lk)
        = pushHistory S { S.present with objects := normalizeZIndex S.present.objects }
    ∧ (S.present.objects = normalizeZIndex S.present.objects →
        (editorReducer S (.UPDATE_OBJECT id ch)).present = S.present) := by
  have hmap : ∀ f : EditorObject → EditorObject,
      (S.present.objects.map fun o => if o.id = id then f o else o) = S.present.objects := by
    intro f
    have hcongr : ∀ o ∈ S.present.objects, (if o.id = id then f o else o) = o :=
      fun o ho => if_neg (h o ho)
    rw [List.map_congr_left hcongr, List.map_id']
  refine ⟨?_, ?_, ?_, ?_⟩
  · simp only [editorReducer, hmap]
  · simp only [editorReducer, hmap]
  · simp only [editorReducer, hmap]
  · intro hn
    simp only [editorReducer, hmap, pushHistory, ← hn]

/-- Witness for the amended C4 at a concrete state and id. -/
theorem missing_id_commands_push_unchanged_present_witness :
    (∀ o ∈ emptyState.present.objects, o.id ≠ "x") ∧
    editorReducer emptyState (.UPDATE_OBJECT "x" {})
      = pushHistory emptyState
          { emptyState.present with objects := normalizeZIndex emptyState.present.objects } :=
  ⟨by simp [emptyState, emptyPresent],
   (missing_id_commands_push_unchanged_present emptyState "x" {} true true
      (by simp [emptyState, emptyPresent])).1⟩

/-! ### C2: z-index normalization invariant -/

/-- The states reachable from the initial history state by dispatching any
sequence of commands. -/
inductive Reachable : EditorState → Prop
  | init : Reachable initialState
  | step {S : EditorState} (a : EditorAction) :
      Reachable S → Reachable (editorReducer S a)

/-- The z-indices of `l` are exactly `0, 1, …, n-1` in array order. -/
def NormalizedObjs (l : List EditorObject) : Prop :=
  ∀ i (h : i < l.length), (l.get ⟨i, h⟩).zIndex = (i : ℚ)

/-- Every snapshot stored anywhere in the history container is normalized. -/
def AllNormalized (S : EditorState) : Prop :=
  (∀ p ∈ S.past, NormalizedObjs p.objects) ∧
  NormalizedObjs S.present.objects ∧
  (∀ p ∈ S.future, NormalizedObjs p.objects)

theorem normalizedObjs_normalizeZIndex (l : List EditorObject) :
    NormalizedObjs (normalizeZIndex l) := by
  intro i h
  have hlen : i < l.length := by
    simpa [normalizeZIndex, List.length_mapIdx] using h
  simpa [normalizeZIndex] using
    List.get_mapIdx l (fun index obj => { obj with zIndex := (index : ℚ) }) i hlen h

unseal Rat.sub Rat.mul Rat.inv Rat.add in
theorem initialRegions_fixed : initialRegions = normalizeZIndex initialRegions := by decide

theorem normalizedObjs_initialRegions : NormalizedObjs initialRegions := by
  rw [initialRegions_fixed]
  exact normalizedObjs_normalizeZIndex initialRegions

theorem allNormalized_pushHistory (S : EditorState) (next : EditorPresent)
    (h : AllNormalized S) (hn : NormalizedObjs next.objects) :
    AllNormalized (pushHistory S next) := by
  refine ⟨?_, hn, ?_⟩
  · intro p hp
    rcases List.mem_append.1 hp with h1 | h2
    · exact h.1 p h1
    · rw [List.mem_singleton] at h2
      exact h2 ▸ h.2.1
  · intro p hp
    simp [pushHistory] at hp

theorem allNormalized_step (S : EditorState) (a : EditorAction)
    (h : AllNormalized S) : AllNormalized (editorReducer S a) := by
  obtain ⟨hp, hc, hf⟩ := h
  cases a with
  | SET_SELECTED id => exact ⟨hp, hc, hf⟩
  | ADD_OBJECT o =>
      exact allNormalized_pushHistory _ _ ⟨hp, hc, hf⟩ (normalizedObjs_normalizeZIndex _)
  | UPDATE_OBJECT id ch =>
      exact allNormalized_pushHistory _ _ ⟨hp, hc, hf⟩ (normalizedObjs_normalizeZIndex _)
  | DELETE_OBJECT id =>
      exact allNormalized_pushHistory _ _ ⟨hp, hc, hf⟩ (normalizedObjs_normalizeZIndex _)
  | BRING_TO_FRONT id =>
      rcases hfind : S.present.objects.find? fun o => o.id = id with _ | t
      · simpa only [editorReducer, hfind] using ⟨hp, hc, hf⟩
      · simp only [editorReducer, hfind]
        exact allNormalized_pushHistory _ _ ⟨hp, hc, hf⟩ (normalizedObjs_normalizeZIndex _)
  | SEND_TO_BACK id =>
      rcases hfind : S.present.objects.find? fun o => o.id = id with _ | t
      · simpa only [editorReducer, hfind] using ⟨hp, hc, hf⟩
      · simp only [editorReducer, hfind]
        exact allNormalized_pushHistory _ _ ⟨hp, hc, hf⟩ (normalizedObjs_normalizeZIndex _)
  | SET_VISIBILITY id v =>
      exact allNormalized_pushHistory _ _ ⟨hp, hc, hf⟩ (normalizedObjs_normalizeZIndex _)
  | SET_LOCK id lk =>
      exact allNormalized_pushHistory _ _ ⟨hp, hc, hf⟩ (normalizedObjs_normalizeZIndex _)
  | SET_ZOOM z =>
      exact allNormalized_pushHistory _ _ ⟨hp, hc, hf⟩ hc
  | SET_VIEWPORT z p =>
      exact allNormalized_pushHistory _ _ ⟨hp, hc, hf⟩ hc
  | SET_PAN p =>
      exact allNormalized_pushHistory _ _ ⟨hp, hc, hf⟩ hc
  | RESET =>
      exact ⟨fun p hp => absurd hp (List.not_mem_nil p), normalizedObjs_initialRegions,
        fun p hp => absurd hp (List.not_mem_nil p)⟩
  | IMPORT_STATE p =>
      exact ⟨fun q hq => absurd hq (List.not_mem_nil q), normalizedObjs_normalizeZIndex _,
        fun q hq => absurd hq (List.not_mem_nil q)⟩
  | UNDO =>
      rcases hlast : S.past.getLast? with _ | prev
      · simpa only [editorReducer, hlast] using ⟨hp, hc, hf⟩
      · simp only [editorReducer, hlast]
        refine ⟨?_, ?_, ?_⟩
        · intro p hp'
          exact hp p ((List.dropLast_sublist S.past).mem hp')
        · obtain ⟨hne, heq⟩ := List.mem_getLast?_eq_getLast (by rw [hlast]; exact rfl)
          exact heq ▸ hp _ (List.getLast_mem hne)
        · intro p hp'
          rcases List.mem_cons.1 hp' with h1 | h2
          · exact h1 ▸ hc
          · exact hf p h2
  | REDO =>
      rcases hfut : S.future with _ | ⟨next, rest⟩
      · simpa only [editorReducer, hfut] using ⟨hp, hc, hf⟩
      · simp only [editorReducer, hfut]
        refine ⟨?_, ?_, ?_⟩
        · intro p hp'
          rcases List.mem_append.1 hp' with h1 | h2
          · exact hp p h1
          · rw [List.mem_singleton] at h2
            exact h2 ▸ hc
        · exact hf next (by rw [hfut]; exact List.mem_cons_self next rest)
        · intro p hp'
          exact hf p (by rw [hfut]; exact List.mem_cons_of_mem next hp')
  | CLEAR =>
      exact allNormalized_pushHistory _ _ ⟨hp, hc, hf⟩ (normalizedObjs_normalizeZIndex _)

/-- C2: in every reachable history state the z-indices of `present.objects`
are exactly `0 … n-1` in array order, and this remains true after every
single further command. -/
theorem reachable_zindex_normalized (S : EditorState) (h : Reachable S) :
    NormalizedObjs S.present.objects ∧
    ∀ a : EditorAction, NormalizedObjs (editorReducer S a).present.objects := by
  have inv : AllNormalized S := by
    induction h with
    | init => exact ⟨by simp [initialState], normalizedObjs_initialRegions, by simp [initialState]⟩
    | step a _ ih => exact allNormalized_step _ a ih
  exact ⟨inv.2.1, fun a => (allNormalized_step S a inv).2.1⟩

/-- Witness for C2 at the initial state. -/
theorem reachable_zindex_normalized_witness :
    NormalizedObjs initialState.present.objects :=
  (reachable_zindex_normalized initialState Reachable.init).1

/-! ### C6: zoom range -/

/-- The imported snapshot used to drive the zoom outside `[0.2, 4]`. -/
def oversizedImport : EditorPresent :=
  { objects := [], selectedId := none, zoom := 10, pan := { x := 0, y := 0 } }

/-- Counterexample to C6 as stated: `IMPORT_STATE` installs the supplied
snapshot's zoom without clamping, so a reachable state can carry zoom `10`. -/
theorem import_zoom_escapes_range :
    Reachable (editorReducer initialState (.IMPORT_STATE oversizedImport)) ∧
    (editorReducer initialState (.IMPORT_STATE oversizedImport)).present.zoom = 10 ∧
    ¬ (editorReducer initialState (.IMPORT_STATE oversizedImport)).present.zoom ≤ 4 :=
  ⟨Reachable.step _ Reachable.init, rfl, (by norm_num : ¬ (10 : ℚ) ≤ 4)⟩

/-- Commands whose imported snapshot (if any) already has an in-range zoom. -/
def ZoomSafe : EditorAction → Prop
  | .IMPORT_STATE p => 2 / 10 ≤ p.zoom ∧ p.zoom ≤ 4
  | _ => True

/-- Reachability restricted to zoom-safe commands. -/
inductive ReachableSafe : EditorState → Prop
  | init : ReachableSafe initialState
  | step {S : EditorState} (a : EditorAction) (ha : ZoomSafe a) :
      ReachableSafe S → ReachableSafe (editorReducer S a)

/-- The snapshot's zoom lies in the hard-clamp interval `[0.2, 4]`. -/
def ZoomInRange (p : EditorPresent) : Prop := 2 / 10 ≤ p.zoom ∧ p.zoom ≤ 4

/-- Every snapshot stored anywhere in the history container has an in-range
zoom. -/
def AllZoomInRange (S : EditorState) : Prop :=
  (∀ p ∈ S.past, ZoomInRange p) ∧ ZoomInRange S.present ∧ (∀ p ∈ S.future, ZoomInRange p)

theorem zoomInRange_initialPresent : ZoomInRange initialPresent := by
  constructor <;> norm_num [initialPresent]

theorem clamp_zoom_mem (z : ℚ) : 2 / 10 ≤ clamp z (2 / 10) 4 ∧ clamp z (2 / 10) 4 ≤ 4 :=
  ⟨le_min (le_max_right z (2 / 10)) (by norm_num), min_le_right _ 4⟩

theorem allZoomInRange_pushHistory (S : EditorState) (next : EditorPresent)
    (h : AllZoomInRange S) (hn : ZoomInRange next) :
    AllZoomInRange (pushHistory S next) := by
  refine ⟨?_, hn, fun p hp => absurd hp (List.not_mem_nil p)⟩
  intro p hp
  rcases List.mem_append.1 hp with h1 | h2
  · exact h.1 p h1
  · rw [List.mem_singleton] at h2
    exact h2 ▸ h.2.1

theorem allZoomInRange_step (S : EditorState) (a : EditorAction)
    (ha : ZoomSafe a) (h : AllZoomInRange S) : AllZoomInRange (editorReducer S a) := by
  obtain ⟨hp, hc, hf⟩ := h
  cases a with
  | SET_SELECTED id => exact ⟨hp, hc, hf⟩
  | ADD_OBJECT o => exact allZoomInRange_pushHistory _ _ ⟨hp, hc, hf⟩ hc
  | UPDATE_OBJECT id ch => exact allZoomInRange_pushHistory _ _ ⟨hp, hc, hf⟩ hc
  | DELETE_OBJECT id => exact allZoomInRange_pushHistory _ _ ⟨hp, hc, hf⟩ hc
  | BRING_TO_FRONT id =>
      rcases hfind : S.present.objects.find? fun o => o.id = id with _ | t
      · simpa only [editorReducer, hfind] using ⟨hp, hc, hf⟩
      · simp only [editorReducer, hfind]
        exact allZoomInRange_pushHistory _ _ ⟨hp, hc, hf⟩ hc
  | SEND_TO_BACK id =>
      rcases hfind : S.present.objects.find? fun o => o.id = id with _ | t
      · simpa only [editorReducer, hfind] using ⟨hp, hc, hf⟩
      · simp only [editorReducer, hfind]
        exact allZoomInRange_pushHistory _ _ ⟨hp, hc, hf⟩ hc
  | SET_VISIBILITY id v => exact allZoomInRange_pushHistory _ _ ⟨hp, hc, hf⟩ hc
  | SET_LOCK id lk => exact allZoomInRange_pushHistory _ _ ⟨hp, hc, hf⟩ hc
  | SET_ZOOM z => exact allZoomInRange_pushHistory _ _ ⟨hp, hc, hf⟩ (clamp_zoom_mem z)
  | SET_VIEWPORT z p => exact allZoomInRange_pushHistory _ _ ⟨hp, hc, hf⟩ (clamp_zoom_mem z)
  | SET_PAN p => exact allZoomInRange_pushHistory _ _ ⟨hp, hc, hf⟩ hc
  | RESET =>
      exact ⟨fun p hp => absurd hp (List.not_mem_nil p), zoomInRange_initialPresent,
        fun p hp => absurd hp (List.not_mem_nil p)⟩
  | IMPORT_STATE p =>
      exact ⟨fun q hq => absurd hq (List.not_mem_nil q), ha,
        fun q hq => absurd hq (List.not_mem_nil q)⟩
  | UNDO =>
      rcases hlast : S.past.getLast? with _ | prev
      · simpa only [editorReducer, hlast] using ⟨hp, hc, hf⟩
      · simp only [editorReducer, hlast]
        refine ⟨fun p hp' => hp p ((List.dropLast_sublist S.past).mem hp'), ?_, ?_⟩
        · obtain ⟨hne, heq⟩ := List.mem_getLast?_eq_getLast (by rw [hlast]; exact rfl)
          exact heq ▸ hp _ (List.getLast_mem hne)
        · intro p hp'
          rcases List.mem_cons.1 hp' with h1 | h2
          · exact h1 ▸ hc
          · exact hf p h2
  | REDO =>
      rcases hfut : S.future with _ | ⟨next, rest⟩
      · simpa only [editorReducer, hfut] using ⟨hp, hc, hf⟩
      · simp only [editorReducer, hfut]
        refine ⟨?_, hf next (by rw [hfut]; exact List.mem_cons_self next rest), ?_⟩
        · intro p hp'
          rcases List.mem_append.1 hp' with h1 | h2
          · exact hp p h1
          · rw [List.mem_singleton] at h2
            exact h2 ▸ hc
        · intro p hp'
          exact hf p (by rw [hfut]; exact List.mem_cons_of_mem next hp')
  | CLEAR => exact allZoomInRange_pushHistory _ _ ⟨hp, hc, hf⟩ hc

/-- C6 as amended: set-zoom and set-viewport always store
`clamp(requested, 0.2, 4)`, and along any command sequence whose imported
snapshots already carry an in-range zoom, every reachable state's
`present.zoom` stays in `[0.2, 4]` (import itself installs the supplied zoom
unclamped, which is what the counterexample exploits). -/
theorem zoom_in_range_when_imports_safe :
    (∀ S : EditorState, ReachableSafe S → ZoomInRange S.present) ∧
    (∀ (S : EditorState) (z : ℚ),
      (editorReducer S (.SET_ZOOM z)).present.zoom = clamp z (2 / 10) 4) ∧
    (∀ (S : EditorState) (z : ℚ) (pan : Pan),
      (editorReducer S (.SET_VIEWPORT z pan)).present.zoom = clamp z (2 / 10) 4) := by
  refine ⟨fun S h => ?_, fun S z => rfl, fun S z pan => rfl⟩
  have inv : AllZoomInRange S := by
    induction h with
    | init =>
        exact ⟨fun p hp => absurd hp (List.not_mem_nil p), zoomInRange_initialPresent,
          fun p hp => absurd hp (List.not_mem_nil p)⟩
    | step a ha _ ih => exact allZoomInRange_step _ a ha ih
  exact inv.2.1

/-- Witness for the amended C6: the invariant at the initial state, and the
clamp equation at a concrete over-range zoom command. -/
theorem zoom_in_range_when_imports_safe_witness :
    ZoomInRange initialState.present ∧
    (editorReducer emptyState (.SET_ZOOM 10)).present.zoom = clamp 10 (2 / 10) 4 :=
  ⟨zoom_in_range_when_imports_safe.1 initialState ReachableSafe.init,
   zoom_in_range_when_imports_safe.2.1 emptyState 10⟩

/-! ### C7: id uniqueness -/

/-- The ids of an object collection in array order. -/
def idsOf (l : List EditorObject) : List String := l.map fun o => o.id

/-- All ids of the collection are pairwise distinct. -/
def DistinctIds (l : List EditorObject) : Prop := (idsOf l).Nodup

/-- A concrete object used to exhibit an id collision. -/
def plainObject : EditorObject :=
  { id := "a", type := .rect, name := "A", x := 0, y := 0, width := .finite 1,
    height := .finite 1, rotation := 0, zIndex := 0, scaleX := none, scaleY := none,
    fill := none, stroke := none, strokeWidth := none, opacity := 1, visible := true,
    locked := false, patternId := none, points := none, text := none, fontSize := none,
    fontFamily := none, align := none, src := none }

/-- A history state whose present holds exactly `plainObject`. -/
def singletonState : EditorState :=
  { past := [],
    present := { objects := [plainObject], selectedId := none, zoom := 1,
                 pan := { x := 0, y := 0 } },
    future := [] }

/-- Counterexample to C7 as stated: `ADD_OBJECT` performs no id check, so
adding a caller-supplied object whose id already exists produces a collection
with two objects of the same id. -/
theorem add_duplicate_id_breaks_uniqueness :
    DistinctIds singletonState.present.objects ∧
    ¬ DistinctIds (editorReducer singletonState (.ADD_OBJECT plainObject)).present.objects := by
  constructor
  · show (idsOf singletonState.present.objects).Nodup
    decide
  · show ¬ (idsOf (editorReducer singletonState (.ADD_OBJECT plainObject)).present.objects).Nodup
    decide

/-- Every snapshot stored anywhere in the history container has distinct ids. -/
def AllDistinctIds (S : EditorState) : Prop :=
  (∀ p ∈ S.past, DistinctIds p.objects) ∧
  DistinctIds S.present.objects ∧
  (∀ p ∈ S.future, DistinctIds p.objects)

/-- The id-safety side conditions the source relies on its callers for: added
objects carry a fresh id, update payloads do not rewrite the id key, imported
snapshots have distinct ids. -/
def IdSafe (S : EditorState) : EditorAction → Prop
  | .ADD_OBJECT o => o.id ∉ idsOf S.present.objects
  | .UPDATE_OBJECT _ ch => ch.id = none
  | .IMPORT_STATE p => DistinctIds p.objects
  | _ => True

theorem idsOf_normalizeZIndex (l : List EditorObject) :
    idsOf (normalizeZIndex l) = idsOf l := by
  apply List.ext_get
  · simp [idsOf, normalizeZIndex, List.length_mapIdx]
  · intro i h1 h2
    have hlen : i < l.length := by
      simpa [idsOf, normalizeZIndex, List.length_mapIdx] using h1
    have hmi : i < (l.mapIdx fun index obj => { obj with zIndex := (index : ℚ) }).length := by
      simpa [List.length_mapIdx] using hlen
    have hg := List.get_mapIdx l (fun index obj => { obj with zIndex := (index : ℚ) }) i hlen hmi
    simp [idsOf, normalizeZIndex, hg]

theorem idsOf_map_preserving (f : EditorObject → EditorObject)
    (hid : ∀ o, (f o).id = o.id) (l : List EditorObject) :
    idsOf (l.map f) = idsOf l := by
  simp only [idsOf, List.map_map]
  exact List.map_congr_left fun o _ => hid o

theorem distinctIds_filter (l : List EditorObject) (p : EditorObject → Bool)
    (h : DistinctIds l) : DistinctIds (l.filter p) := by
  simp only [DistinctIds, idsOf] at h ⊢
  exact List.Nodup.sublist (List.Sublist.map (fun o => o.id) (List.filter_sublist l)) h

theorem allDistinctIds_pushHistory (S : EditorState) (next : EditorPresent)
    (h : AllDistinctIds S) (hn : DistinctIds next.objects) :
    AllDistinctIds (pushHistory S next) := by
  refine ⟨?_, hn, fun p hp => absurd hp (List.not_mem_nil p)⟩
  intro p hp
  rcases List.mem_append.1 hp with h1 | h2
  · exact h.1 p h1
  · rw [List.mem_singleton] at h2
    exact h2 ▸ h.2.1

theorem find?_filter_distinct (objects : List EditorObject) (id : String)
    (target : EditorObject)
    (ht : objects.find? (fun o => o.id = id) = some target)
    (h : DistinctIds objects) :
    DistinctIds ((objects.filter fun o => o.id ≠ id) ++ [target]) ∧
    DistinctIds (target :: objects.filter fun o => o.id ≠ id) := by
  have htid : target.id = id := by
    have := List.find?_some ht
    simpa using this
  have hrest : DistinctIds (objects.filter fun o => o.id ≠ id) :=
    distinctIds_filter objects _ h
  have hnotin : target.id ∉ idsOf (objects.filter fun o => o.id ≠ id) := by
    intro hmem
    simp only [idsOf, List.mem_map] at hmem
    obtain ⟨o, ho, hoid⟩ := hmem
    have := List.of_mem_filter ho
    simp only [decide_eq_true_eq] at this
    exact this (hoid.trans htid)
  have hcons : DistinctIds (target :: objects.filter fun o => o.id ≠ id) := by
    simp only [DistinctIds, idsOf, List.map_cons]
    exact List.nodup_cons.2 ⟨by simpa [idsOf] using hnotin, hrest⟩
  refine ⟨?_, hcons⟩
  simp only [DistinctIds, idsOf, List.map_append, List.map_singleton]
  exact (List.perm_append_singleton _ _).nodup_iff.2 (by simpa [DistinctIds, idsOf] using hcons)

theorem allDistinctIds_step (S : EditorState) (a : EditorAction)
    (ha : IdSafe S a) (h : AllDistinctIds S) : AllDistinctIds (editorReducer S a) := by
  obtain ⟨hp, hc, hf⟩ := h
  cases a with
  | SET_SELECTED id => exact ⟨hp, hc, hf⟩
  | ADD_OBJECT o =>
      refine allDistinctIds_pushHistory _ _ ⟨hp, hc, hf⟩ ?_
      show DistinctIds (normalizeZIndex _)
      rw [DistinctIds, idsOf_normalizeZIndex]
      have : idsOf (S.present.objects ++ [{ o with zIndex := (S.present.objects.length : ℚ) }])
          = idsOf S.present.objects ++ [o.id] := by
        simp [idsOf]
      rw [this]
      refine (List.perm_append_singleton _ _).nodup_iff.2 (List.nodup_cons.2 ⟨?_, hc⟩)
      exact ha
  | UPDATE_OBJECT id ch =>
      refine allDistinctIds_pushHistory _ _ ⟨hp, hc, hf⟩ ?_
      show DistinctIds (normalizeZIndex _)
      rw [DistinctIds, idsOf_normalizeZIndex, idsOf_map_preserving]
      · exact hc
      · intro o
        have hchid : ch.id = none := ha
        by_cases hoid : o.id = id
        · simp only [if_pos hoid]
          show (applyChanges o ch).id = o.id
          simp [applyChanges, hchid]
        · simp [if_neg hoid]
  | DELETE_OBJECT id =>
      refine allDistinctIds_pushHistory _ _ ⟨hp, hc, hf⟩ ?_
      show DistinctIds (normalizeZIndex _)
      rw [DistinctIds, idsOf_normalizeZIndex]
      exact distinctIds_filter _ _ hc
  | BRING_TO_FRONT id =>
      rcases hfind : S.present.objects.find? fun o => o.id = id with _ | t
      · simpa only [editorReducer, hfind] using ⟨hp, hc, hf⟩
      · simp only [editorReducer, hfind]
        refine allDistinctIds_pushHistory _ _ ⟨hp, hc, hf⟩ ?_
        show DistinctIds (normalizeZIndex _)
        rw [DistinctIds, idsOf_normalizeZIndex]
        exact (find?_filter_distinct _ _ _ hfind hc).1
  | SEND_TO_BACK id =>
      rcases hfind : S.present.objects.find? fun o => o.id = id with _ | t
      · simpa only [editorReducer, hfind] using ⟨hp, hc, hf⟩
      · simp only [editorReducer, hfind]
        refine allDistinctIds_pushHistory _ _ ⟨hp, hc, hf⟩ ?_
        show DistinctIds (normalizeZIndex _)
        rw [DistinctIds, idsOf_normalizeZIndex]
        exact (find?_filter_distinct _ _ _ hfind hc).2
  | SET_VISIBILITY id v =>
      refine allDistinctIds_pushHistory _ _ ⟨hp, hc, hf⟩ ?_
      show DistinctIds (normalizeZIndex _)
      rw [DistinctIds, idsOf_normalizeZIndex, idsOf_map_preserving]
      · exact hc
      · intro o
        by_cases hoid : o.id = id <;> simp [hoid]
  | SET_LOCK id lk =>
      refine allDistinctIds_pushHistory _ _ ⟨hp, hc, hf⟩ ?_
      show DistinctIds (normalizeZIndex _)
      rw [DistinctIds, idsOf_normalizeZIndex, idsOf_map_preserving]
      · exact hc
      · intro o
        by_cases hoid : o.id = id <;> simp [hoid]
  | SET_ZOOM z => exact allDistinctIds_pushHistory _ _ ⟨hp, hc, hf⟩ hc
  | SET_VIEWPORT z p => exact allDistinctIds_pushHistory _ _ ⟨hp, hc, hf⟩ hc
  | SET_PAN p => exact allDistinctIds_pushHistory _ _ ⟨hp, hc, hf⟩ hc
  | RESET =>
      refine ⟨fun p hp' => absurd hp' (List.not_mem_nil p), ?_,
        fun p hp' => absurd hp' (List.not_mem_nil p)⟩
      show (idsOf initialRegions).Nodup
      decide
  | IMPORT_STATE p =>
      refine ⟨fun q hq => absurd hq (List.not_mem_nil q), ?_,
        fun q hq => absurd hq (List.not_mem_nil q)⟩
      show DistinctIds (normalizeZIndex p.objects)
      rw [DistinctIds, idsOf_normalizeZIndex]
      exact ha
  | UNDO =>
      rcases hlast : S.past.getLast? with _ | prev
      · simpa only [editorReducer, hlast] using ⟨hp, hc, hf⟩
      · simp only [editorReducer, hlast]
        refine ⟨fun p hp' => hp p ((List.dropLast_sublist S.past).mem hp'), ?_, ?_⟩
        · obtain ⟨hne, heq⟩ := List.mem_getLast?_eq_getLast (by rw [hlast]; exact rfl)
          exact heq ▸ hp _ (List.getLast_mem hne)
        · intro p hp'
          rcases List.mem_cons.1 hp' with h1 | h2
          · exact h1 ▸ hc
          · exact hf p h2
  | REDO =>
      rcases hfut : S.future with _ | ⟨next, rest⟩
      · simpa only [editorReducer, hfut] using ⟨hp, hc, hf⟩
      · simp only [editorReducer, hfut]
        refine ⟨?_, hf next (by rw [hfut]; exact List.mem_cons_self next rest), ?_⟩
        · intro p hp'
          rcases List.mem_append.1 hp' with h1 | h2
          · exact hp p h1
          · rw [List.mem_singleton] at h2
            exact h2 ▸ hc
        · intro p hp'
          exact hf p (by rw [hfut]; exact List.mem_cons_of_mem next hp')
  | CLEAR =>
      refine allDistinctIds_pushHistory _ _ ⟨hp, hc, hf⟩ ?_
      show DistinctIds (normalizeZIndex _)
      rw [DistinctIds, idsOf_normalizeZIndex]
      exact distinctIds_filter _ _ hc

/-- C7 as amended: if every snapshot in the history container has pairwise
distinct ids, then after any single command the ids stay pairwise distinct —
provided the id-safety conditions the source leaves to its callers hold: an
added object's id is fresh, an update does not rewrite the id key, and an
imported snapshot has distinct ids (the counterexample shows `ADD_OBJECT`
with a colliding id breaks uniqueness). -/
theorem distinct_ids_preserved (S : EditorState) (a : EditorAction)
    (h : AllDistinctIds S) (ha : IdSafe S a) :
    DistinctIds (editorReducer S a).present.objects ∧
    AllDistinctIds (editorReducer S a) := by
  have := allDistinctIds_step S a ha h
  exact ⟨this.2.1, this⟩

/-- Witness for the amended C7: adding a fresh id to the singleton state. -/
theorem distinct_ids_preserved_witness :
    DistinctIds
      (editorReducer singletonState
        (.ADD_OBJECT { plainObject with id := "b" })).present.objects :=
  (distinct_ids_preserved singletonState (.ADD_OBJECT { plainObject with id := "b" })
    ⟨fun p hp => absurd hp (List.not_mem_nil p),
     show (idsOf singletonState.present.objects).Nodup from by decide,
     fun p hp => absurd hp (List.not_mem_nil p)⟩
    (show "b" ∉ idsOf singletonState.present.objects from by decide)).1

/-! ### C10: the locked flag is never consulted -/

/-- Forget an object's locked flag (set it to `false`). -/
def eraseLockedObj (o : EditorObject) : EditorObject := { o with locked := false }

/-- Forget the locked flags of a whole snapshot. -/
def eraseLockedPresent (p : EditorPresent) : EditorPresent :=
  { p with objects := p.objects.map eraseLockedObj }

/-- Forget the locked flags everywhere in the history container. -/
def eraseLockedState (S : EditorState) : EditorState :=
  { past := S.past.map eraseLockedPresent,
    present := eraseLockedPresent S.present,
    future := S.future.map eraseLockedPresent }

theorem map_erase_update_comm (l : List EditorObject) (id : String)
    (ch : ObjectChanges) (hch : ch.locked = none) :
    ((l.map eraseLockedObj).map fun o => if o.id = id then applyChanges o ch else o)
      = (l.map fun o => if o.id = id then applyChanges o ch else o).map eraseLockedObj := by
  simp only [List.map_map]
  apply List.map_congr_left
  intro o _
  show (if (eraseLockedObj o).id = id then applyChanges (eraseLockedObj o) ch
        else eraseLockedObj o)
      = eraseLockedObj (if o.id = id then applyChanges o ch else o)
  by_cases hoid : o.id = id
  · rw [if_pos (show (eraseLockedObj o).id = id from hoid), if_pos hoid]
    simp [applyChanges, eraseLockedObj, hch]
  · rw [if_neg (show ¬ (eraseLockedObj o).id = id from hoid), if_neg hoid]

theorem map_erase_filter_comm (l : List EditorObject) (id : String) :
    ((l.map eraseLockedObj).filter fun o => o.id ≠ id)
      = (l.filter fun o => o.id ≠ id).map eraseLockedObj := by
  simp only [ne_eq]
  induction l with
  | nil => rfl
  | cons o rest ih =>
      simp only [List.map_cons, List.filter_cons]
      simp only [decide_not] at ih
      by_cases hoid : o.id = id
      · simp [eraseLockedObj, hoid, ih]
      · simp [eraseLockedObj, hoid, ih]

theorem normalizeZIndex_map_erase (l : List EditorObject) :
    normalizeZIndex (l.map eraseLockedObj) = (normalizeZIndex l).map eraseLockedObj := by
  apply List.ext_get
  · simp [normalizeZIndex, List.length_mapIdx]
  · intro i h1 h2
    have hl : i < l.length := by
      simpa [normalizeZIndex, List.length_mapIdx] using h1
    have hml : i < (l.map eraseLockedObj).length := by simpa using hl
    have h1' : i < ((l.map eraseLockedObj).mapIdx
        fun index obj => { obj with zIndex := (index : ℚ) }).length := by
      simpa [List.length_mapIdx] using hml
    have h2' : i < (l.mapIdx fun index obj => { obj with zIndex := (index : ℚ) }).length := by
      simpa [List.length_mapIdx] using hl
    have hgL := List.get_mapIdx (l.map eraseLockedObj)
      (fun index obj => { obj with zIndex := (index : ℚ) }) i hml h1'
    have hgR := List.get_mapIdx l
      (fun index obj => { obj with zIndex := (index : ℚ) }) i hl h2'
    simp [normalizeZIndex, hgL, hgR, eraseLockedObj]

/-- C10: the reducer never consults the locked flag. Erasing every locked
flag from the state commutes with the update-attributes command (as long as
the update payload does not itself write the flag) and with the delete
command: a locked object is merged into or removed from the collection
exactly as the same object with `locked := false` would be. -/
theorem locked_flag_never_consulted (S : EditorState) (id : String)
    (ch : ObjectChanges) (hch : ch.locked = none) :
    editorReducer (eraseLockedState S) (.UPDATE_OBJECT id ch)
        = eraseLockedState (editorReducer S (.UPDATE_OBJECT id ch))
    ∧ editorReducer (eraseLockedState S) (.DELETE_OBJECT id)
        = eraseLockedState (editorReducer S (.DELETE_OBJECT id)) := by
  constructor
  · simp only [editorReducer, eraseLockedState, eraseLockedPresent, pushHistory]
    rw [map_erase_update_comm S.present.objects id ch hch, normalizeZIndex_map_erase]
    simp [List.map_append, eraseLockedPresent]
  · simp only [editorReducer, eraseLockedState, eraseLockedPresent, pushHistory]
    rw [map_erase_filter_comm, normalizeZIndex_map_erase]
    simp [List.map_append, eraseLockedPresent]

/-- Witness for C10 at a concrete locked object. -/
theorem locked_flag_never_consulted_witness :
    ({ name := some "B" : ObjectChanges }).locked = none ∧
    editorReducer (eraseLockedState singletonState) (.UPDATE_OBJECT "a" { name := some "B" })
        = eraseLockedState (editorReducer singletonState (.UPDATE_OBJECT "a" { name := some "B" })) :=
  ⟨rfl,
   (locked_flag_never_consulted singletonState "a" { name := some "B" } rfl).1⟩

/-! ### C5: serialization round trip -/

theorem getField_nil (k : String) : getField [] k = none := rfl

theorem getField_cons_self (k : String) (v : Json) (fs : List (String × Json)) :
    getField ((k, v) :: fs) k = some v := by
  simp [getField, List.find?]

theorem getField_cons_ne {k' k : String} (h : ¬ k' = k) (v : Json)
    (fs : List (String × Json)) :
    getField ((k', v) :: fs) k = getField fs k := by
  simp [getField, List.find?, h]

theorem getField_optField_ne {k' k : String} (h : ¬ k' = k) (f : α → Json)
    (oa : Option α) (fs : List (String × Json)) :
    getField (optField k' f oa ++ fs) k = getField fs k := by
  cases oa <;> simp [optField, getField_cons_ne h]

theorem getField_optField_self (k : String) (f : α → Json) (oa : Option α)
    (fs : List (String × Json)) (hrest : getField fs k = none) :
    getField (optField k f oa ++ fs) k = oa.map f := by
  cases oa with
  | none => simpa [optField] using hrest
  | some a => simp [optField, getField_cons_self]

theorem getField_optField_ne_last {k' k : String} (h : ¬ k' = k) (f : α → Json)
    (oa : Option α) :
    getField (optField k' f oa) k = none := by
  cases oa <;> simp [optField, getField_cons_ne h, getField_nil]

theorem getField_optField_self_last (k : String) (f : α → Json) (oa : Option α) :
    getField (optField k f oa) k = oa.map f := by
  cases oa <;> simp [optField, getField_cons_self, getField_nil]

theorem asObjectType_encode (t : ObjectType) :
    asObjectType (encodeObjectType t) = some t := by
  cases t <;> rfl

theorem asAlign_encode (a : Align) : asAlign (encodeAlign a) = some a := by
  cases a <;> rfl

theorem decodeList_map_num (ps : List ℚ) :
    decodeList asNum (ps.map Json.num) = some ps := by
  induction ps with
  | nil => rfl
  | cons q rest ih => simp [decodeList, asNum, ih]

theorem asPoints_encode (ps : List ℚ) :
    asPoints (.arr (ps.map Json.num)) = some ps := by
  simp [asPoints, decodeList_map_num]

theorem decodeOpt_num (oa : Option ℚ) :
    decodeOpt asNum (oa.map Json.num) = some oa := by
  cases oa <;> rfl

theorem decodeOpt_str (oa : Option String) :
    decodeOpt asStr (oa.map Json.str) = some oa := by
  cases oa <;> rfl

theorem decodeOpt_points (oa : Option (List ℚ)) :
    decodeOpt asPoints (oa.map fun ps => Json.arr (ps.map Json.num)) = some oa := by
  cases oa with
  | none => rfl
  | some ps => simp [decodeOpt, asPoints_encode]

theorem decodeOpt_align (oa : Option Align) :
    decodeOpt asAlign (oa.map encodeAlign) = some oa := by
  cases oa with
  | none => rfl
  | some a => simp [decodeOpt, asAlign_encode]

/-- An object whose width and height are finite numbers (the only values a
JSON round trip can preserve, since `JSON.stringify` maps `±Infinity` and
`NaN` to `null`). -/
def FinitelySized (o : EditorObject) : Prop :=
  (∃ q, o.width = JsNum.finite q) ∧ (∃ q, o.height = JsNum.finite q)

theorem encFields_id (o : EditorObject) :
    getField (encFields o) "id" = some (.str o.id) := by
  simp [encFields, getField_cons_self, getField_cons_ne]

theorem encFields_type (o : EditorObject) :
    getField (encFields o) "type" = some (encodeObjectType o.type) := by
  simp [encFields, getField_cons_self, getField_cons_ne]

theorem encFields_name (o : EditorObject) :
    getField (encFields o) "name" = some (.str o.name) := by
  simp [encFields, getField_cons_self, getField_cons_ne]

theorem encFields_x (o : EditorObject) :
    getField (encFields o) "x" = some (.num o.x) := by
  simp [encFields, getField_cons_self, getField_cons_ne]

theorem encFields_y (o : EditorObject) :
    getField (encFields o) "y" = some (.num o.y) := by
  simp [encFields, getField_cons_self, getField_cons_ne]

theorem encFields_width (o : EditorObject) :
    getField (encFields o) "width" = some (encodeJsNum o.width) := by
  simp [encFields, getField_cons_self, getField_cons_ne]

theorem encFields_height (o : EditorObject) :
    getField (encFields o) "height" = some (encodeJsNum o.height) := by
  simp [encFields, getField_cons_self, getField_cons_ne]

theorem encFields_rotation (o : EditorObject) :
    getField (encFields o) "rotation" = some (.num o.rotation) := by
  simp [encFields, getField_cons_self, getField_cons_ne]

theorem encFields_zIndex (o : EditorObject) :
    getField (encFields o) "zIndex" = some (.num o.zIndex) := by
  simp [encFields, getField_cons_self, getField_cons_ne]

theorem encFields_opacity (o : EditorObject) :
    getField (encFields o) "opacity" = some (.num o.opacity) := by
  simp [encFields, getField_cons_self, getField_cons_ne]

theorem encFields_visible (o : EditorObject) :
    getField (encFields o) "visible" = some (.bool o.visible) := by
  simp [encFields, getField_cons_self, getField_cons_ne]

theorem encFields_locked (o : EditorObject) :
    getField (encFields o) "locked" = some (.bool o.locked) := by
  simp [encFields, getField_cons_self, getField_cons_ne]

theorem encFields_scaleX (o : EditorObject) :
    getField (encFields o) "scaleX" = o.scaleX.map Json.num := by
  simp [encFields, getField_cons_ne, getField_optField_ne, getField_optField_self,
    getField_optField_ne_last, getField_optField_self_last, getField_nil]

theorem encFields_scaleY (o : EditorObject) :
    getField (encFields o) "scaleY" = o.scaleY.map Json.num := by
  simp [encFields, getField_cons_ne, getField_optField_ne, getField_optField_self,
    getField_optField_ne_last, getField_optField_self_last, getField_nil]

theorem encFields_fill (o : EditorObject) :
    getField (encFields o) "fill" = o.fill.map Json.str := by
  simp [encFields, getField_cons_ne, getField_optField_ne, getField_optField_self,
    getField_optField_ne_last, getField_optField_self_last, getField_nil]

theorem encFields_stroke (o : EditorObject) :
    getField (encFields o) "stroke" = o.stroke.map Json.str := by
  simp [encFields, getField_cons_ne, getField_optField_ne, getField_optField_self,
    getField_optField_ne_last, getField_optField_self_last, getField_nil]

theorem encFields_strokeWidth (o : EditorObject) :
    getField (encFields o) "strokeWidth" = o.strokeWidth.map Json.num := by
  simp [encFields, getField_cons_ne, getField_optField_ne, getField_optField_self,
    getField_optField_ne_last, getField_optField_self_last, getField_nil]

theorem encFields_patternId (o : EditorObject) :
    getField (encFields o) "patternId" = o.patternId.map Json.str := by
  simp [encFields, getField_cons_ne, getField_optField_ne, getField_optField_self,
    getField_optField_ne_last, getField_optField_self_last, getField_nil]

theorem encFields_points (o : EditorObject) :
    getField (encFields o) "points"
      = o.points.map fun ps => Json.arr (ps.map Json.num) := by
  simp [encFields, getField_cons_ne, getField_optField_ne, getField_optField_self,
    getField_optField_ne_last, getField_optField_self_last, getField_nil]

theorem encFields_text (o : EditorObject) :
    getField (encFields o) "text" = o.text.map Json.str := by
  simp [encFields, getField_cons_ne, getField_optField_ne, getField_optField_self,
    getField_optField_ne_last, getField_optField_self_last, getField_nil]

theorem encFields_fontSize (o : EditorObject) :
    getField (encFields o) "fontSize" = o.fontSize.map Json.num := by
  simp [encFields, getField_cons_ne, getField_optField_ne, getField_optField_self,
    getField_optField_ne_last, getField_optField_self_last, getField_nil]

theorem encFields_fontFamily (o : EditorObject) :
    getField (encFields o) "fontFamily" = o.fontFamily.map Json.str := by
  simp [encFields, getField_cons_ne, getField_optField_ne, getField_optField_self,
    getField_optField_ne_last, getField_optField_self_last, getField_nil]

theorem encFields_align (o : EditorObject) :
    getField (encFields o) "align" = o.align.map encodeAlign := by
  simp [encFields, getField_cons_ne, getField_optField_ne, getField_optField_self,
    getField_optField_ne_last, getField_optField_self_last, getField_nil]

theorem encFields_src (o : EditorObject) :
    getField (encFields o) "src" = o.src.map Json.str := by
  simp [encFields, getField_cons_ne, getField_optField_ne, getField_optField_self,
    getField_optField_ne_last, getField_optField_self_last, getField_nil]

theorem decodeScalars_encFields (o : EditorObject) (hfin : FinitelySized o) :
    decodeScalars (encFields o)
      = some { id := o.id, type := o.type, name := o.name, x := o.x, y := o.y,
               width := o.width, height := o.height, rotation := o.rotation,
               zIndex := o.zIndex, opacity := o.opacity, visible := o.visible,
               locked := o.locked } := by
  obtain ⟨⟨qw, hqw⟩, ⟨qh, hqh⟩⟩ := hfin
  simp [decodeScalars, encFields_id, encFields_type, encFields_name, encFields_x,
    encFields_y, encFields_width, encFields_height, encFields_rotation,
    encFields_zIndex, encFields_opacity, encFields_visible, encFields_locked,
    asStr, asNum, asBool, asJsNum, asObjectType_encode, encodeJsNum, hqw, hqh]

theorem decodeOptionals_encFields (o : EditorObject) :
    decodeOptionals (encFields o)
      = some { scaleX := o.scaleX, scaleY := o.scaleY, fill := o.fill,
               stroke := o.stroke, strokeWidth := o.strokeWidth,
               patternId := o.patternId, points := o.points, text := o.text,
               fontSize := o.fontSize, fontFamily := o.fontFamily,
               align := o.align, src := o.src } := by
  simp [decodeOptionals, encFields_scaleX, encFields_scaleY, encFields_fill,
    encFields_stroke, encFields_strokeWidth, encFields_patternId, encFields_points,
    encFields_text, encFields_fontSize, encFields_fontFamily, encFields_align,
    encFields_src, decodeOpt_num, decodeOpt_str, decodeOpt_points, decodeOpt_align]

theorem decodeObject_encodeObject (o : EditorObject) (hfin : FinitelySized o) :
    decodeObject (encodeObject o) = some o := by
  simp [decodeObject, encodeObject, decodeScalars_encFields o hfin,
    decodeOptionals_encFields o]

theorem decodeList_encodeObject (objs : List EditorObject)
    (hfin : ∀ o ∈ objs, FinitelySized o) :
    decodeList decodeObject (objs.map encodeObject) = some objs := by
  induction objs with
  | nil => rfl
  | cons o rest ih =>
      simp only [List.map_cons, decodeList,
        decodeObject_encodeObject o (hfin o (List.mem_cons_self o rest))]
      rw [ih fun o' ho' => hfin o' (List.mem_cons_of_mem o ho')]
      rfl

/-- C5: for every valid snapshot (finite widths and heights, the only ones a
JSON number can carry back), parsing the serialized snapshot yields the
snapshot with its z-indices renormalized to array positions; if the snapshot
was already normalized the round trip is the identity. -/
theorem parse_serialize_roundtrip (p : EditorPresent)
    (hfin : ∀ o ∈ p.objects, FinitelySized o) :
    parseState (serializeState p) = some { p with objects := normalizeZIndex p.objects } ∧
    (p.objects = normalizeZIndex p.objects → parseState (serializeState p) = some p) := by
  have hmain : parseState (serializeState p)
      = some { p with objects := normalizeZIndex p.objects } := by
    cases hsel : p.selectedId with
    | none =>
        simp [parseState, serializeState, hsel, getField_cons_self, getField_cons_ne,
          getField_nil, decodeList_encodeObject p.objects hfin, asNum]
    | some sid =>
        simp [parseState, serializeState, hsel, getField_cons_self, getField_cons_ne,
          getField_nil, decodeList_encodeObject p.objects hfin, asNum]
  refine ⟨hmain, fun hn => ?_⟩
  rw [hmain, ← hn]

/-- Witness for C5 at a concrete snapshot containing one object. -/
theorem parse_serialize_roundtrip_witness :
    (∀ o ∈ singletonState.present.objects, FinitelySized o) ∧
    parseState (serializeState singletonState.present)
      = some { singletonState.present with
               objects := normalizeZIndex singletonState.present.objects } :=
  have hfin : ∀ o ∈ singletonState.present.objects, FinitelySized o := by
    intro o ho
    simp only [singletonState, List.mem_singleton] at ho
    exact ho ▸ ⟨⟨1, rfl⟩, ⟨1, rfl⟩⟩
  ⟨hfin, (parse_serialize_roundtrip singletonState.present hfin).1⟩

end KonvaEditor
